import Mathlib

/-!
Verification of the AdGuardHome query-log engine specification and of the
legacy DNS rewrite lookup.

The query-log engine itself (package `internal/querylog`) is exercised by its
tests; its state, operations and search algorithm are modelled here from the
specification.  The legacy rewrite lookup (`findRewrites` and its helpers in
package `filtering`) is embedded directly from the source.
-/

/-- A query-log record.  Modelled from the spec: the Record held in memory or
persisted on disk — queried host name, client address (its canonical string
form), symbolic query type and class, the raw wire-format answer bytes, the
raw pre-rewrite answer bytes, and the upstream identifier.  Field names follow
the Go `logEntry` structure used by the tests. -/
structure logEntry where
  QHost : String
  IP : String
  QType : String
  QClass : String
  Answer : List Nat
  OrigAnswer : List Nat
  Upstream : String
deriving DecidableEq, Repr

/-- Modelled from the spec: engine configuration — enabled flag,
file-persistence flag, memory capacity (entry count) and ignored-host set.
Rotation interval and base directory do not affect the modelled behaviour. -/
structure Config where
  enabled : Bool
  fileEnabled : Bool
  memSize : Nat
  ignored : List String
deriving DecidableEq, Repr

/-- Length-prefix a field's bytes inside a persisted unit. -/
def encField (bs : List Nat) : List Nat := bs.length :: bs

/-- The byte form of a string field: the code point of each character. -/
def strBytes (s : String) : List Nat := s.toList.map Char.toNat

/-- Decode a string field back from its byte form. -/
def bytesStr (bs : List Nat) : String := String.mk (bs.map Char.ofNat)

/-- Modelled from the spec: the Entry Codec's `encode` — one self-describing
unit per Record, a sequence of length-prefixed fields preserving the exact
wire bytes of the answer fields. -/
def encodeEntry (e : logEntry) : List Nat :=
  encField (strBytes e.QHost) ++ encField (strBytes e.IP) ++
    encField (strBytes e.QType) ++ encField (strBytes e.QClass) ++
    encField e.Answer ++ encField e.OrigAnswer ++ encField (strBytes e.Upstream)

/-- Read one length-prefixed field; `none` when the unit is corrupt (shorter
than its declared length). -/
def decField : List Nat → Option (List Nat × List Nat)
  | [] => none
  | n :: rest => if n ≤ rest.length then some (rest.take n, rest.drop n) else none

/-- Modelled from the spec: the Entry Codec's `decode` — parses one persisted
unit; a corrupt unit yields `none`, a recoverable failure that callers skip. -/
def decodeEntry (u : List Nat) : Option logEntry := do
  let (h, u) ← decField u
  let (ip, u) ← decField u
  let (qt, u) ← decField u
  let (qc, u) ← decField u
  let (ans, u) ← decField u
  let (orig, u) ← decField u
  let (ups, u) ← decField u
  if u.isEmpty then
    some ⟨bytesStr h, bytesStr ip, bytesStr qt, bytesStr qc, ans, orig, bytesStr ups⟩
  else none

/-- Modelled from the spec: the engine's state — configuration, the Memory
Buffer (newest first), the active disk file and the closed disk files (most
recently closed first), each file an ordered sequence of persisted units
(newest first, i.e. as seen scanning the file from its end backward). -/
structure queryLog where
  conf : Config
  memBuffer : List logEntry
  activeFile : List (List Nat)
  closedFiles : List (List (List Nat))
deriving DecidableEq, Repr

/-- Modelled from the spec: `newQueryLog` — a fresh engine with an empty
buffer and no files. -/
def newQueryLog (c : Config) : queryLog := ⟨c, [], [], []⟩

/-- Modelled from the spec: the Add path — append a record to the Memory
Buffer; at capacity, flush to the Disk Store first when persistence is on,
otherwise silently evict the oldest record. -/
def addEntry (e : logEntry) (l : queryLog) : queryLog :=
  if l.memBuffer.length < l.conf.memSize then
    { l with memBuffer := e :: l.memBuffer }
  else if l.conf.fileEnabled then
    { l with
      memBuffer := [e]
      activeFile := l.memBuffer.map encodeEntry ++ l.activeFile }
  else
    { l with memBuffer := e :: l.memBuffer.dropLast }

/-- Modelled from the spec: `flushLogBuffer(true)` — force-append the Memory
Buffer contents to the active file; a no-op when persistence is disabled. -/
def flushLogBuffer (l : queryLog) : queryLog :=
  if l.conf.fileEnabled then
    { l with
      memBuffer := []
      activeFile := l.memBuffer.map encodeEntry ++ l.activeFile }
  else l

/-- Modelled from the spec: `rotate` — finalize the active file and open a
new, empty one; a no-op when persistence is disabled. -/
def rotate (l : queryLog) : queryLog :=
  if l.conf.fileEnabled then
    { l with activeFile := [], closedFiles := l.activeFile :: l.closedFiles }
  else l

/-- Modelled from the spec: a search criterion — matching mode (strict =
exact, non-strict = substring) and a text value; the single "term" variant. -/
structure searchCriterion where
  strict : Bool
  value : String
deriving DecidableEq, Repr

/-- Modelled from the spec: search parameters — criteria, offset, limit
(0 = unlimited) and the per-file scan cap (0 = unbounded). -/
structure searchParams where
  searchCriteria : List searchCriterion
  offset : Nat
  limit : Nat
  maxFileScanEntries : Nat
deriving DecidableEq, Repr

/-- Modelled from the spec: `newSearchParams` — no criteria, no offset,
unlimited page, unbounded per-file scan. -/
def newSearchParams : searchParams := ⟨[], 0, 0, 0⟩

/-- The case-folded character sequence of a string. -/
def lowerChars (s : String) : List Char := s.toList.map Char.toLower

/-- `isPrefixList p l` is true when `p` is a prefix of `l`. -/
def isPrefixList : List Char → List Char → Bool
  | [], _ => true
  | _ :: _, [] => false
  | a :: as, b :: bs => a == b && isPrefixList as bs

/-- `containsSub p l` is true when `p` occurs inside `l` as a contiguous
sublist. -/
def containsSub (pat : List Char) : List Char → Bool
  | [] => isPrefixList pat []
  | c :: rest => isPrefixList pat (c :: rest) || containsSub pat rest

/-- Modelled from the spec: one criterion matches a Record when its value
matches the host field or the client-address field; strict means
case-insensitive full equality, non-strict case-insensitive containment. -/
def critMatches (c : searchCriterion) (e : logEntry) : Bool :=
  if c.strict then
    lowerChars e.QHost == lowerChars c.value || lowerChars e.IP == lowerChars c.value
  else
    containsSub (lowerChars c.value) (lowerChars e.QHost) ||
      containsSub (lowerChars c.value) (lowerChars e.IP)

/-- Modelled from the spec: criteria combine with logical AND. -/
def matchesAll (cs : List searchCriterion) (e : logEntry) : Bool :=
  cs.all (fun c => critMatches c e)

/-- Modelled from the spec: the per-file scan cap — a positive cap keeps only
the first `cap` units seen scanning from the file's end; 0 means unbounded. -/
def capUnits (cap : Nat) (us : List (List Nat)) : List (List Nat) :=
  if cap = 0 then us else us.take cap

/-- Modelled from the spec: scanning one file — inspect units newest first up
to the cap, skipping units that fail to decode. -/
def scanFile (cap : Nat) (us : List (List Nat)) : List logEntry :=
  (capUnits cap us).filterMap decodeEntry

/-- Modelled from the spec: the candidate stream in strict reverse-
chronological order — Memory Buffer snapshot first, then the active file,
then each closed file from most recently closed to oldest. -/
def candidates (l : queryLog) (cap : Nat) : List logEntry :=
  l.memBuffer ++ scanFile cap l.activeFile ++
    (l.closedFiles.map (scanFile cap)).flatten

/-- Modelled from the spec: walk the ordered candidates once, counting every
match and collecting those past the offset. -/
def searchLoop (cs : List searchCriterion) : List logEntry → Nat → List logEntry × Nat
  | [], _ => ([], 0)
  | e :: rest, off =>
    if matchesAll cs e then
      match off with
      | 0 =>
        let (es, n) := searchLoop cs rest 0
        (e :: es, n + 1)
      | off' + 1 =>
        let (es, n) := searchLoop cs rest off'
        (es, n + 1)
    else searchLoop cs rest off

/-- Modelled from the spec: `search` — filter the ordered candidates, skip
`offset` matches, return up to `limit` of the rest (`limit = 0` meaning all),
together with the total match count prior to pagination. -/
def search (l : queryLog) (p : searchParams) : List logEntry × Nat :=
  let (es, n) := searchLoop p.searchCriteria (candidates l p.maxFileScanEntries) p.offset
  (if p.limit = 0 then es else es.take p.limit, n)

/-- Modelled from the spec: `ShouldLog` — false iff the host is in the
configured ignored set; the query type and class play no role. -/
def ShouldLog (l : queryLog) (host : String) (qtype qclass : Nat) : Bool :=
  !(l.conf.ignored.contains host)

/-- The full newest-first filtered candidate sequence a search paginates. -/
def fullMatches (l : queryLog) (p : searchParams) : List logEntry :=
  (candidates l p.maxFileScanEntries).filter (matchesAll p.searchCriteria)

/-- Modelled from the spec: the statistics configuration request consumed by
the PUT config handler — nullable enabled flag, interval in milliseconds and
the ignored-host list. -/
structure StatsConfigReq where
  enabled : Option Bool
  interval : Nat
  ignored : List String
deriving DecidableEq, Repr

/-- One hour in milliseconds, the minimum rotation interval. -/
def hourMs : Nat := 3600000

/-- One year (365 days) in milliseconds, the maximum rotation interval. -/
def yearMs : Nat := 365 * 24 * 3600000

/-- Modelled from the spec: scan the ignored-host list for the first malformed
entry — an empty host name, or a duplicate, reported with its index. -/
def findIgnoredError : List String → List String → Nat → Option String
  | _, [], _ => none
  | seen, h :: rest, i =>
    if h = "" then some "ignored: host name is empty"
    else if seen.contains h then
      some ("ignored: duplicate host name \"" ++ h ++ "\" at index " ++ toString i)
    else findIgnoredError (h :: seen) rest (i + 1)

/-- Modelled from the spec: the PUT config handler — validates the request
eagerly and either rejects it with a descriptive error or accepts it whole;
only a fully validated configuration is ever stored. -/
def handlePutStatsConfig (req : StatsConfigReq) : Except String StatsConfigReq :=
  match req.enabled with
  | none => .error "enabled is null"
  | some _ =>
    if req.interval < hourMs then .error "unsupported interval: less than an hour"
    else if yearMs < req.interval then .error "unsupported interval: more than a year"
    else
      match findIgnoredError [] req.ignored 0 with
      | some e => .error e
      | none => .ok req

/-- Modelled from the spec: the GET config handler returns the stored
configuration as is. -/
def handleGetStatsConfig (stored : StatsConfigReq) : StatsConfigReq := stored

/-- DNS record type A. -/
def TypeA : Nat := 1

/-- DNS record type CNAME. -/
def TypeCNAME : Nat := 5

/-- DNS record type AAAA. -/
def TypeAAAA : Nat := 28

/-- A single legacy DNS rewrite record (`LegacyRewrite` in package
`filtering`).  `Typ` embeds the Go field `Type`, a reserved word in Lean. -/
structure LegacyRewrite where
  Domain : String
  Answer : String
  IP : Option (List Nat)
  Typ : Nat
deriving DecidableEq, Repr

/-- `matchesQType` from the source: CNAME entries match every question type;
other entries match only A/AAAA questions, and then only when the types agree
or the entry carries no IP. -/
def matchesQType (rw : LegacyRewrite) (qt : Nat) : Bool :=
  if rw.Typ = TypeCNAME then true
  else if qt ≠ TypeA ∧ qt ≠ TypeAAAA then false
  else rw.Typ == qt || rw.IP == none

/-- `isWildcard` from the source: a pattern of length at least two starting
with the two characters star and dot. -/
def isWildcard (pat : String) : Bool :=
  match pat.toList with
  | '*' :: '.' :: _ => true
  | _ => false

/-- `isSuffixList p l` is true when `p` is a suffix of `l`. -/
def isSuffixList (p l : List Char) : Bool := isPrefixList p.reverse l.reverse

/-- `matchDomainWildcard` from the source: the host matches a wildcard
pattern when the pattern is a wildcard and the host ends with the pattern
minus its leading star. -/
def matchDomainWildcard (host wildcard : String) : Bool :=
  isWildcard wildcard && isSuffixList (wildcard.toList.drop 1) host.toList

/-- `legacyRewriteSortsBefore` from the source: CNAME entries first, then
exact patterns before wildcards, then longer domains first. -/
def legacyRewriteSortsBefore (a b : LegacyRewrite) : Bool :=
  if a.Typ = TypeCNAME ∧ b.Typ ≠ TypeCNAME then true
  else if a.Typ ≠ TypeCNAME ∧ b.Typ = TypeCNAME then false
  else if isWildcard a.Domain ≠ isWildcard b.Domain then isWildcard b.Domain
  else b.Domain.length < a.Domain.length

/-- Insert an element into a list ahead of the first element it compares
before. -/
def insertSorted {α : Type} (le : α → α → Bool) (a : α) : List α → List α
  | [] => [a]
  | b :: bs => if le a b then a :: b :: bs else b :: insertSorted le a bs

/-- Insertion sort by a comparison function, embedding the call to Go's
`slices.SortFunc` (an unspecified comparison sort). -/
def sortFunc {α : Type} (le : α → α → Bool) : List α → List α
  | [] => []
  | a :: as => insertSorted le a (sortFunc le as)

/-- The part of the sorted rewrite list strictly before its first wildcard
entry. -/
def dropFromWildcard : List LegacyRewrite → List LegacyRewrite
  | [] => []
  | r :: rest => if isWildcard r.Domain then [] else r :: dropFromWildcard rest

/-- The truncation loop of `findRewrites` from the source: cut the sorted
list at its first wildcard entry, but keep at least one element. -/
def truncAtWildcard : List LegacyRewrite → List LegacyRewrite
  | [] => []
  | r :: rest => if isWildcard r.Domain then [r] else r :: dropFromWildcard rest

/-- The domain-match test of the `findRewrites` loop: exact equality or
wildcard match. -/
def rewriteDomainMatches (e : LegacyRewrite) (host : String) : Bool :=
  e.Domain == host || matchDomainWildcard host e.Domain

/-- `findRewrites` from the source: collect entries whose domain matches the
host, report whether any did, keep those fitting the question type, sort them
and truncate at the first wildcard. -/
def findRewrites (entries : List LegacyRewrite) (host : String) (qtype : Nat) :
    List LegacyRewrite × Bool :=
  let ms := entries.filter (fun e => rewriteDomainMatches e host)
  let matched := !ms.isEmpty
  let rws := ms.filter (fun e => matchesQType e qtype)
  if rws.isEmpty then ([], matched)
  else (truncAtWildcard (sortFunc legacyRewriteSortsBefore rws), matched)

/-- A file-persistence-enabled configuration mirroring the test setup. -/
def cfgFile : Config := ⟨true, true, 100, []⟩

/-- A file-persistence-disabled configuration with capacity two, mirroring
the eviction test setup. -/
def cfgNoFile : Config := ⟨true, false, 2, []⟩

/-- Sample record: `example.org` resolved for client `2.2.2.1`. -/
def recA : logEntry := ⟨"example.org", "2.2.2.1", "A", "IN", [1, 1, 1, 1], [1, 1, 1, 1], "upstream"⟩

/-- Sample record: `example.org` resolved for client `2.2.2.2`. -/
def recB : logEntry := ⟨"example.org", "2.2.2.2", "A", "IN", [1, 1, 1, 2], [1, 1, 1, 2], "upstream"⟩

/-- Sample record: `test.example.org` resolved for client `2.2.2.3`. -/
def recC : logEntry := ⟨"test.example.org", "2.2.2.3", "A", "IN", [1, 1, 1, 3], [1, 1, 1, 3], "upstream"⟩

/-- Sample record: `example.com` resolved for client `2.2.2.4`. -/
def recD : logEntry := ⟨"example.com", "2.2.2.4", "A", "IN", [1, 1, 1, 4], [1, 1, 1, 4], "upstream"⟩

/-- A log whose single disk file holds `recA` (older, host `example.org`) and
`recC` (newer, host `test.example.org`). -/
def capLog : queryLog := flushLogBuffer (addEntry recC (addEntry recA (newQueryLog cfgFile)))

/-- A search for `test` over `capLog` with an unbounded per-file scan. -/
def capParamsAll : searchParams := ⟨[⟨false, "test"⟩], 0, 0, 0⟩

/-- The same search with a per-file scan cap of one record. -/
def capParamsOne : searchParams := ⟨[⟨false, "test"⟩], 0, 0, 1⟩

/-- A persisted unit that declares one byte but carries none: corrupt. -/
def badUnit : List Nat := [1]

/-- A legacy rewrite: wildcard domain pattern answered by a CNAME. -/
def rwWildCNAME : LegacyRewrite := ⟨"*.example.org", "cname.example.net", none, TypeCNAME⟩

/-- A legacy rewrite: exact domain answered by an A record. -/
def rwExactA : LegacyRewrite := ⟨"x.example.org", "1.2.3.4", some [1, 2, 3, 4], TypeA⟩

theorem decField_encField (bs rest : List Nat) :
    decField (encField bs ++ rest) = some (bs, rest) := by
  simp [decField, encField, List.take_left, List.drop_left]

theorem decField_encField_nil (bs : List Nat) : decField (encField bs) = some (bs, []) := by
  simpa using decField_encField bs []

theorem bytesStr_strBytes (s : String) : bytesStr (strBytes s) = s := by
  cases s with
  | mk data =>
    simp [bytesStr, strBytes, List.map_map, Function.comp_def, Char.ofNat_toNat]

theorem decodeEntry_encodeEntry (e : logEntry) : decodeEntry (encodeEntry e) = some e := by
  cases e with
  | mk h ip qt qc ans orig ups =>
    simp [decodeEntry, encodeEntry, List.append_assoc, decField_encField,
      decField_encField_nil, bytesStr_strBytes]

theorem filterMap_decodeEntry_map (rs : List logEntry) :
    (rs.map encodeEntry).filterMap decodeEntry = rs := by
  induction rs with
  | nil => rfl
  | cons r rs ih => simp [List.filterMap_cons, decodeEntry_encodeEntry, ih]

theorem searchLoop_eq (cs : List searchCriterion) (l : List logEntry) (off : Nat) :
    searchLoop cs l off =
      ((l.filter (matchesAll cs)).drop off, (l.filter (matchesAll cs)).length) := by
  induction l generalizing off with
  | nil => simp [searchLoop]
  | cons e rest ih =>
    cases hm : matchesAll cs e with
    | false => simp [searchLoop, hm, List.filter_cons, ih]
    | true =>
      cases off with
      | zero => simp [searchLoop, hm, List.filter_cons, ih]
      | succ off' => simp [searchLoop, hm, List.filter_cons, ih]

theorem search_eq (l : queryLog) (p : searchParams) :
    search l p =
      (if p.limit = 0 then (fullMatches l p).drop p.offset
       else ((fullMatches l p).drop p.offset).take p.limit,
       (fullMatches l p).length) := by
  simp [search, searchLoop_eq, fullMatches]

theorem filter_matchesAll_nil (l : List logEntry) : l.filter (matchesAll []) = l :=
  List.filter_eq_self.mpr (fun _ _ => rfl)

theorem take_append_take {α : Type} (xs ys : List α) (n : Nat) :
    (xs ++ ys.take n).take n = (xs ++ ys).take n := by
  rw [List.take_append_eq_append_take, List.take_append_eq_append_take, List.take_take]
  congr 1
  exact congrArg ys.take (Nat.min_eq_left (Nat.sub_le n xs.length))

theorem addEntry_fileDisabled (e : logEntry) (l : queryLog)
    (hf : l.conf.fileEnabled = false) (h1 : 1 ≤ l.conf.memSize)
    (h2 : l.memBuffer.length ≤ l.conf.memSize) :
    addEntry e l = { l with memBuffer := (e :: l.memBuffer).take l.conf.memSize } := by
  unfold addEntry
  by_cases hlt : l.memBuffer.length < l.conf.memSize
  · rw [if_pos hlt]
    have : (e :: l.memBuffer).take l.conf.memSize = e :: l.memBuffer :=
      List.take_of_length_le (by simpa using hlt)
    rw [this]
  · rw [if_neg hlt, hf, if_neg Bool.false_ne_true]
    have hlen : l.memBuffer.length = l.conf.memSize := Nat.le_antisymm h2 (Nat.le_of_not_lt hlt)
    obtain ⟨m, hm⟩ : ∃ m, l.conf.memSize = m + 1 :=
      ⟨l.conf.memSize - 1, (Nat.succ_pred_eq_of_pos h1).symm⟩
    rw [hm, List.take_succ_cons, List.dropLast_eq_take, hlen, hm]
    simp

theorem foldl_addEntry_fileDisabled (rs : List logEntry) (l : queryLog)
    (hf : l.conf.fileEnabled = false) (h1 : 1 ≤ l.conf.memSize)
    (h2 : l.memBuffer.length ≤ l.conf.memSize) :
    rs.foldl (fun acc e => addEntry e acc) l =
      { l with memBuffer := (rs.reverse ++ l.memBuffer).take l.conf.memSize } := by
  induction rs generalizing l with
  | nil =>
    simp [List.take_of_length_le h2]
  | cons r rs ih =>
    simp only [List.foldl_cons]
    rw [addEntry_fileDisabled r l hf h1 h2]
    have hstep := ih { l with memBuffer := (r :: l.memBuffer).take l.conf.memSize }
      hf h1 (by simp [List.length_take])
    rw [hstep]
    simp only [List.reverse_cons, List.append_assoc, List.singleton_append]
    congr 1
    exact take_append_take rs.reverse (r :: l.memBuffer) l.conf.memSize

theorem foldl_addEntry_no_evict (rs : List logEntry) (l : queryLog)
    (h : l.memBuffer.length + rs.length ≤ l.conf.memSize) :
    rs.foldl (fun acc e => addEntry e acc) l =
      { l with memBuffer := rs.reverse ++ l.memBuffer } := by
  induction rs generalizing l with
  | nil => simp
  | cons r rs ih =>
    simp only [List.foldl_cons]
    have hlt : l.memBuffer.length < l.conf.memSize := by
      simp only [List.length_cons] at h
      omega
    rw [show addEntry r l = { l with memBuffer := r :: l.memBuffer } by
          unfold addEntry; rw [if_pos hlt]]
    rw [ih _ (by simp at h ⊢; omega)]
    simp

theorem isPrefixList_iff (p l : List Char) : isPrefixList p l = true ↔ p <+: l := by
  induction p generalizing l with
  | nil => simp [isPrefixList]
  | cons a as ih =>
    cases l with
    | nil => simp [isPrefixList]
    | cons b bs => simp [isPrefixList, ih, List.cons_prefix_cons]

theorem containsSub_iff (p l : List Char) : containsSub p l = true ↔ p <:+: l := by
  induction l with
  | nil => simp [containsSub, isPrefixList_iff, List.prefix_nil, List.infix_nil]
  | cons c rest ih => simp [containsSub, isPrefixList_iff, ih, List.infix_cons_iff]

theorem mem_insertSorted {α : Type} (le : α → α → Bool) (a x : α) (l : List α) :
    x ∈ insertSorted le a l ↔ x = a ∨ x ∈ l := by
  induction l with
  | nil => simp [insertSorted]
  | cons b bs ih =>
    by_cases h : le a b = true
    · simp [insertSorted, h]
    · simp only [insertSorted, if_neg h, List.mem_cons, ih]
      tauto

theorem mem_sortFunc {α : Type} (le : α → α → Bool) (x : α) (l : List α) :
    x ∈ sortFunc le l ↔ x ∈ l := by
  induction l with
  | nil => simp [sortFunc]
  | cons a as ih => simp [sortFunc, mem_insertSorted, ih]

theorem length_insertSorted {α : Type} (le : α → α → Bool) (a : α) (l : List α) :
    (insertSorted le a l).length = l.length + 1 := by
  induction l with
  | nil => rfl
  | cons b bs ih =>
    by_cases h : le a b = true
    · simp [insertSorted, h]
    · simp [insertSorted, h, ih]

theorem length_sortFunc {α : Type} (le : α → α → Bool) (l : List α) :
    (sortFunc le l).length = l.length := by
  induction l with
  | nil => rfl
  | cons a as ih => simp [sortFunc, length_insertSorted, ih]

theorem dropFromWildcard_no_wild (l : List LegacyRewrite) :
    ∀ r ∈ dropFromWildcard l, isWildcard r.Domain = false := by
  induction l with
  | nil => simp [dropFromWildcard]
  | cons a as ih =>
    by_cases h : isWildcard a.Domain = true
    · simp [dropFromWildcard, h]
    · simp only [dropFromWildcard, if_neg h]
      intro r hr
      rcases List.mem_cons.mp hr with rfl | hr
      · exact Bool.eq_false_iff.mpr h
      · exact ih r hr

theorem truncAtWildcard_no_mix (l : List LegacyRewrite) :
    (∀ r ∈ truncAtWildcard l, isWildcard r.Domain = true)
      ∨ (∀ r ∈ truncAtWildcard l, isWildcard r.Domain = false) := by
  cases l with
  | nil => exact Or.inr (by simp [truncAtWildcard])
  | cons a as =>
    by_cases h : isWildcard a.Domain = true
    · refine Or.inl ?_
      simp [truncAtWildcard, h]
    · refine Or.inr ?_
      simp only [truncAtWildcard, if_neg h]
      intro r hr
      rcases List.mem_cons.mp hr with rfl | hr
      · exact Bool.eq_false_iff.mpr h
      · exact dropFromWildcard_no_wild as r hr

theorem truncAtWildcard_head_wild (a : LegacyRewrite) (l : List LegacyRewrite)
    (h : isWildcard a.Domain = true) : truncAtWildcard (a :: l) = [a] := by
  simp [truncAtWildcard, h]

/-- Claim C1: after two records are written to two successive disk files via
explicit force-flush and rotation, and two further records are appended and
held only in memory, a search with no criteria returns all four records in
strict reverse-chronological order — the two memory records newest first,
then the record of the second (most recently written) file, then the record
of the first file — and every record written before the flush remains
retrievable even though none of it remains in the Memory Buffer. -/
theorem search_after_flush_rotate (c : Config) (r1 r2 r3 r4 : logEntry)
    (hf : c.fileEnabled = true) (hm : 2 ≤ c.memSize) :
    search (addEntry r4 (addEntry r3 (flushLogBuffer (addEntry r2
        (rotate (flushLogBuffer (addEntry r1 (newQueryLog c)))))))) newSearchParams
      = ([r4, r3, r2, r1], 4)
    ∧ (addEntry r4 (addEntry r3 (flushLogBuffer (addEntry r2
        (rotate (flushLogBuffer (addEntry r1 (newQueryLog c)))))))).memBuffer
      = [r4, r3] := by
  have h0 : 0 < c.memSize := by omega
  have h1 : 1 < c.memSize := by omega
  have s1 : addEntry r1 (newQueryLog c) = ⟨c, [r1], [], []⟩ := by
    unfold addEntry newQueryLog
    simp [h0]
  have s2 : flushLogBuffer (⟨c, [r1], [], []⟩ : queryLog)
      = ⟨c, [], [encodeEntry r1], []⟩ := by
    unfold flushLogBuffer
    simp [hf]
  have s3 : rotate (⟨c, [], [encodeEntry r1], []⟩ : queryLog)
      = ⟨c, [], [], [[encodeEntry r1]]⟩ := by
    unfold rotate
    simp [hf]
  have s4 : addEntry r2 (⟨c, [], [], [[encodeEntry r1]]⟩ : queryLog)
      = ⟨c, [r2], [], [[encodeEntry r1]]⟩ := by
    unfold addEntry
    simp [h0]
  have s5 : flushLogBuffer (⟨c, [r2], [], [[encodeEntry r1]]⟩ : queryLog)
      = ⟨c, [], [encodeEntry r2], [[encodeEntry r1]]⟩ := by
    unfold flushLogBuffer
    simp [hf]
  have s6 : addEntry r3 (⟨c, [], [encodeEntry r2], [[encodeEntry r1]]⟩ : queryLog)
      = ⟨c, [r3], [encodeEntry r2], [[encodeEntry r1]]⟩ := by
    unfold addEntry
    simp [h0]
  have s7 : addEntry r4 (⟨c, [r3], [encodeEntry r2], [[encodeEntry r1]]⟩ : queryLog)
      = ⟨c, [r4, r3], [encodeEntry r2], [[encodeEntry r1]]⟩ := by
    unfold addEntry
    simp [h1]
  rw [s1, s2, s3, s4, s5, s6, s7]
  refine ⟨?_, rfl⟩
  simp [search_eq, fullMatches, candidates, scanFile, capUnits, newSearchParams,
    filter_matchesAll_nil, List.filterMap_cons, decodeEntry_encodeEntry]

/-- Witness for `search_after_flush_rotate` at the test configuration and
records. -/
theorem search_after_flush_rotate_witness :
    cfgFile.fileEnabled = true ∧ 2 ≤ cfgFile.memSize
    ∧ (search (addEntry recD (addEntry recC (flushLogBuffer (addEntry recB
        (rotate (flushLogBuffer (addEntry recA (newQueryLog cfgFile)))))))) newSearchParams
        = ([recD, recC, recB, recA], 4)
      ∧ (addEntry recD (addEntry recC (flushLogBuffer (addEntry recB
        (rotate (flushLogBuffer (addEntry recA (newQueryLog cfgFile)))))))).memBuffer
        = [recD, recC]) :=
  ⟨rfl, by decide, search_after_flush_rotate cfgFile recA recB recC recD rfl (by decide)⟩

/-- Claim C2: for every offset and positive limit, search returns exactly the
slice `[offset, offset+limit)` of the full newest-first filtered candidate
sequence, clipped to the available length; the match count reports the whole
filtered sequence, and an offset at or past the total match count yields an
empty result (and, the function being total, no error). -/
theorem search_pagination (l : queryLog) (p : searchParams) (hlim : 0 < p.limit) :
    (search l p).1 = ((fullMatches l p).drop p.offset).take p.limit
    ∧ (search l p).2 = (fullMatches l p).length
    ∧ ((fullMatches l p).length ≤ p.offset → (search l p).1 = []) := by
  rw [search_eq]
  have hne : ¬p.limit = 0 := by omega
  refine ⟨by simp [hne], rfl, ?_⟩
  intro hoff
  simp [hne, List.drop_eq_nil_of_le hoff]

/-- Witness for `search_pagination`: page two of size one over a two-record
log. -/
theorem search_pagination_witness :
    0 < (⟨[], 1, 1, 0⟩ : searchParams).limit
    ∧ ((search capLog ⟨[], 1, 1, 0⟩).1
        = ((fullMatches capLog ⟨[], 1, 1, 0⟩).drop 1).take 1
      ∧ (search capLog ⟨[], 1, 1, 0⟩).2 = (fullMatches capLog ⟨[], 1, 1, 0⟩).length
      ∧ ((fullMatches capLog ⟨[], 1, 1, 0⟩).length ≤ 1
          → (search capLog ⟨[], 1, 1, 0⟩).1 = [])) :=
  ⟨by decide, search_pagination capLog ⟨[], 1, 1, 0⟩ (by decide)⟩

/-- Claim C3: a criterion matches a Record through its host field or its
client-address field; a strict criterion demands case-insensitive full
equality with one of the two, a non-strict criterion demands case-insensitive
substring containment in one of the two. -/
theorem criterion_semantics (c : searchCriterion) (e : logEntry) :
    (c.strict = true →
      (critMatches c e = true ↔
        lowerChars e.QHost = lowerChars c.value ∨ lowerChars e.IP = lowerChars c.value))
    ∧ (c.strict = false →
      (critMatches c e = true ↔
        lowerChars c.value <:+: lowerChars e.QHost
          ∨ lowerChars c.value <:+: lowerChars e.IP)) := by
  constructor <;> intro hs <;> simp [critMatches, hs, containsSub_iff]

/-- Witness for `criterion_semantics`: strict `TEST.example.org` matches the
record with host `test.example.org`; non-strict `2.2.2` matches the record
with client address `2.2.2.4` through that address alone. -/
theorem criterion_semantics_witness :
    critMatches ⟨true, "TEST.example.org"⟩ recC = true
    ∧ critMatches ⟨false, "2.2.2"⟩ recD = true :=
  ⟨((criterion_semantics ⟨true, "TEST.example.org"⟩ recC).1 rfl).mpr (Or.inl (by decide)),
   ((criterion_semantics ⟨false, "2.2.2"⟩ recD).2 rfl).mpr
     (Or.inr ⟨[], ['.', '4'], by decide⟩)⟩

/-- Claim C6: `ShouldLog` returns false exactly when the host belongs to the
configured ignored set, and its result does not depend on the query type or
class arguments. -/
theorem shouldLog_iff_ignored (l : queryLog) (host : String) (qt qc qt' qc' : Nat) :
    (ShouldLog l host qt qc = false ↔ host ∈ l.conf.ignored)
    ∧ ShouldLog l host qt qc = ShouldLog l host qt' qc' := by
  constructor
  · simp [ShouldLog]
  · rfl

/-- Claim C5: with file persistence disabled and memory capacity `M`, after
appending the records `rs` a search with no criteria and unlimited pagination
returns exactly the newest `min (length rs) M` records newest first; the
older records have been evicted oldest first and are gone. -/
theorem search_file_disabled (c : Config) (rs : List logEntry)
    (hf : c.fileEnabled = false) (h1 : 1 ≤ c.memSize) :
    (search (rs.foldl (fun acc e => addEntry e acc) (newQueryLog c)) newSearchParams).1
      = rs.reverse.take c.memSize
    ∧ (search (rs.foldl (fun acc e => addEntry e acc) (newQueryLog c)) newSearchParams).2
      = min rs.length c.memSize := by
  have hfold := foldl_addEntry_fileDisabled rs (newQueryLog c) hf h1 (by simp [newQueryLog])
  rw [hfold]
  simp [newQueryLog, search_eq, fullMatches, candidates, scanFile, capUnits,
    newSearchParams, filter_matchesAll_nil, List.length_take, Nat.min_comm]

/-- Witness for `search_file_disabled`: three records into a capacity-two
buffer, as in the eviction test. -/
theorem search_file_disabled_witness :
    cfgNoFile.fileEnabled = false ∧ 1 ≤ cfgNoFile.memSize
    ∧ ((search ([recA, recB, recC].foldl (fun acc e => addEntry e acc)
          (newQueryLog cfgNoFile)) newSearchParams).1
        = [recA, recB, recC].reverse.take cfgNoFile.memSize
      ∧ (search ([recA, recB, recC].foldl (fun acc e => addEntry e acc)
          (newQueryLog cfgNoFile)) newSearchParams).2
        = min ([recA, recB, recC] : List logEntry).length cfgNoFile.memSize) :=
  ⟨rfl, by decide, search_file_disabled cfgNoFile [recA, recB, recC] rfl (by decide)⟩

/-- Counterexample to claim C4 as stated: a file of two records of which only
the newest matches the criterion.  An unbounded scan finds one match and a
scan capped at one record also finds one match, not
`records_in_file − k = 1` fewer. -/
theorem search_scan_cap_cex :
    capLog.activeFile.length = 2
    ∧ (search capLog capParamsOne).2 = 1
    ∧ (search capLog capParamsAll).2 = 1
    ∧ ¬((search capLog capParamsAll).2 - (search capLog capParamsOne).2 = 2 - 1) := by
  decide

/-- Claim C4, amended: for a single disk file whose records all satisfy the
search criteria, a positive per-file scan cap `k` no larger than the file
yields exactly `records_in_file − k` fewer matches than the same search
without a cap, and a cap of 0 means unbounded — every record in the file is
inspected and counted. -/
theorem search_scan_cap_all_match (c : Config) (rs : List logEntry)
    (cs : List searchCriterion) (k : Nat)
    (hf : c.fileEnabled = true) (hm : rs.length ≤ c.memSize)
    (hall : ∀ e ∈ rs, matchesAll cs e = true) (hk1 : 1 ≤ k) (hkn : k ≤ rs.length) :
    (search (flushLogBuffer (rs.foldl (fun acc e => addEntry e acc)
        (newQueryLog c))) ⟨cs, 0, 0, 0⟩).2 = rs.length
    ∧ (search (flushLogBuffer (rs.foldl (fun acc e => addEntry e acc)
        (newQueryLog c))) ⟨cs, 0, 0, k⟩).2 = k
    ∧ (search (flushLogBuffer (rs.foldl (fun acc e => addEntry e acc)
          (newQueryLog c))) ⟨cs, 0, 0, 0⟩).2
        - (search (flushLogBuffer (rs.foldl (fun acc e => addEntry e acc)
          (newQueryLog c))) ⟨cs, 0, 0, k⟩).2
      = rs.length - k := by
  have hfold := foldl_addEntry_no_evict rs (newQueryLog c) (by simp [newQueryLog]; omega)
  rw [hfold]
  have hflush : flushLogBuffer { newQueryLog c with memBuffer := rs.reverse ++ (newQueryLog c).memBuffer }
      = ⟨c, [], rs.reverse.map encodeEntry, []⟩ := by
    unfold flushLogBuffer newQueryLog
    simp [hf]
  rw [hflush]
  have hks : ¬k = 0 := by omega
  have hcap0 : capUnits 0 (rs.reverse.map encodeEntry) = rs.reverse.map encodeEntry := by
    simp [capUnits]
  have hcapk : capUnits k (rs.reverse.map encodeEntry)
      = (rs.reverse.take k).map encodeEntry := by
    simp only [capUnits, if_neg hks]
    exact (List.map_take encodeEntry rs.reverse k).symm
  have hfull0 : ((candidates ⟨c, [], rs.reverse.map encodeEntry, []⟩ 0).filter
      (matchesAll cs)) = rs.reverse := by
    simp only [candidates, scanFile, hcap0, filterMap_decodeEntry_map,
      List.map_nil, List.flatten_nil, List.append_nil, List.nil_append]
    exact List.filter_eq_self.mpr (fun a ha => hall a (List.mem_reverse.mp ha))
  have hfullk : ((candidates ⟨c, [], rs.reverse.map encodeEntry, []⟩ k).filter
      (matchesAll cs)) = rs.reverse.take k := by
    simp only [candidates, scanFile, hcapk, filterMap_decodeEntry_map,
      List.map_nil, List.flatten_nil, List.append_nil, List.nil_append]
    exact List.filter_eq_self.mpr
      (fun a ha => hall a (List.mem_reverse.mp (List.mem_of_mem_take ha)))
  have ha : (search (⟨c, [], rs.reverse.map encodeEntry, []⟩ : queryLog) ⟨cs, 0, 0, 0⟩).2
      = rs.length := by
    rw [search_eq]
    simp only [fullMatches]
    rw [hfull0]
    simp
  have hb : (search (⟨c, [], rs.reverse.map encodeEntry, []⟩ : queryLog) ⟨cs, 0, 0, k⟩).2
      = k := by
    rw [search_eq]
    simp only [fullMatches]
    rw [hfullk]
    simp [List.length_take]
    omega
  exact ⟨ha, hb, by rw [ha, hb]⟩

/-- Witness for `search_scan_cap_all_match`: two records, empty criteria,
cap one. -/
theorem search_scan_cap_all_match_witness :
    cfgFile.fileEnabled = true ∧ ([recA, recB] : List logEntry).length ≤ cfgFile.memSize
    ∧ (∀ e ∈ ([recA, recB] : List logEntry), matchesAll [] e = true)
    ∧ 1 ≤ 1 ∧ 1 ≤ ([recA, recB] : List logEntry).length
    ∧ ((search (flushLogBuffer ([recA, recB].foldl (fun acc e => addEntry e acc)
          (newQueryLog cfgFile))) ⟨[], 0, 0, 0⟩).2 = ([recA, recB] : List logEntry).length
      ∧ (search (flushLogBuffer ([recA, recB].foldl (fun acc e => addEntry e acc)
          (newQueryLog cfgFile))) ⟨[], 0, 0, 1⟩).2 = 1
      ∧ (search (flushLogBuffer ([recA, recB].foldl (fun acc e => addEntry e acc)
            (newQueryLog cfgFile))) ⟨[], 0, 0, 0⟩).2
          - (search (flushLogBuffer ([recA, recB].foldl (fun acc e => addEntry e acc)
            (newQueryLog cfgFile))) ⟨[], 0, 0, 1⟩).2
        = ([recA, recB] : List logEntry).length - 1) :=
  ⟨rfl, by decide, by decide, by decide, by decide,
   search_scan_cap_all_match cfgFile [recA, recB] [] 1 rfl (by decide) (by decide)
     (by decide) (by decide)⟩

/-- Claim C8: encoding a Record to its persisted unit and decoding it back
restores the Record whole — in particular the raw wire-format answer bytes —
and a record flushed to disk is returned intact by a later search. -/
theorem codec_preserves_record (e : logEntry) (c : Config)
    (hf : c.fileEnabled = true) (h1 : 1 ≤ c.memSize) :
    decodeEntry (encodeEntry e) = some e
    ∧ search (flushLogBuffer (addEntry e (newQueryLog c))) newSearchParams = ([e], 1) := by
  refine ⟨decodeEntry_encodeEntry e, ?_⟩
  have h0 : 0 < c.memSize := h1
  have s1 : addEntry e (newQueryLog c) = ⟨c, [e], [], []⟩ := by
    unfold addEntry newQueryLog
    simp [h0]
  have s2 : flushLogBuffer (⟨c, [e], [], []⟩ : queryLog) = ⟨c, [], [encodeEntry e], []⟩ := by
    unfold flushLogBuffer
    simp [hf]
  rw [s1, s2]
  simp [search_eq, fullMatches, candidates, scanFile, capUnits, newSearchParams,
    filter_matchesAll_nil, List.filterMap_cons, decodeEntry_encodeEntry]

/-- Witness for `codec_preserves_record` at a sample record. -/
theorem codec_preserves_record_witness :
    cfgFile.fileEnabled = true ∧ 1 ≤ cfgFile.memSize
    ∧ (decodeEntry (encodeEntry recA) = some recA
      ∧ search (flushLogBuffer (addEntry recA (newQueryLog cfgFile))) newSearchParams
        = ([recA], 1)) :=
  ⟨rfl, by decide, codec_preserves_record recA cfgFile rfl (by decide)⟩

/-- Counterexample to claim C9 as stated for capped searches: the corrupt
unit never aborts the scan, but it counts as an inspected on-disk record, so
under a per-file scan cap of one it fills the whole scan window and the
decodable record behind it is no longer considered — the capped search over
the file with the corrupt unit differs from the same search without it. -/
theorem corrupt_unit_capped_cex :
    decodeEntry badUnit = none
    ∧ scanFile 1 [badUnit, encodeEntry recA] = []
    ∧ scanFile 1 [encodeEntry recA] = [recA]
    ∧ search ⟨cfgFile, [], [badUnit, encodeEntry recA], []⟩ ⟨[], 0, 0, 1⟩
      ≠ search ⟨cfgFile, [], [encodeEntry recA], []⟩ ⟨[], 0, 0, 1⟩ := by
  decide

/-- Claim C9, amended: decoding a corrupt unit fails recoverably and the
caller skips that single unit and continues — a search never aborts.  For
every file scan and every search with an unbounded per-file scan cap, one
undecodable unit changes nothing: the rest of the file still decodes and the
search returns exactly what it returns without that unit.  (Under a positive
cap the scan still never aborts, but the corrupt unit consumes one of the
cap's inspected-record slots, so a decodable record past the cap window may
drop out: see the counterexample.) -/
theorem corrupt_unit_skipped (c : Config) (mem : List logEntry)
    (us1 us2 : List (List Nat)) (bad : List Nat) (closed : List (List (List Nat)))
    (p : searchParams) (hbad : decodeEntry bad = none)
    (hcap : p.maxFileScanEntries = 0) :
    scanFile 0 (us1 ++ bad :: us2) = scanFile 0 us1 ++ scanFile 0 us2
    ∧ search ⟨c, mem, us1 ++ bad :: us2, closed⟩ p
      = search ⟨c, mem, us1 ++ us2, closed⟩ p := by
  have hdrop : List.filterMap decodeEntry (bad :: us2) = List.filterMap decodeEntry us2 := by
    rw [List.filterMap_cons, hbad]
  have hscan : scanFile 0 (us1 ++ bad :: us2) = scanFile 0 us1 ++ scanFile 0 us2 := by
    simp [scanFile, capUnits, List.filterMap_append, hdrop]
  refine ⟨hscan, ?_⟩
  have hc : candidates ⟨c, mem, us1 ++ bad :: us2, closed⟩ p.maxFileScanEntries
      = candidates ⟨c, mem, us1 ++ us2, closed⟩ p.maxFileScanEntries := by
    rw [hcap]
    simp [candidates, scanFile, capUnits, List.filterMap_append, hdrop]
  simp [search, hc]

/-- Witness for `corrupt_unit_skipped`: a corrupt unit between two encoded
records. -/
theorem corrupt_unit_skipped_witness :
    decodeEntry badUnit = none ∧ newSearchParams.maxFileScanEntries = 0
    ∧ (scanFile 0 ([encodeEntry recA] ++ badUnit :: [encodeEntry recB])
        = scanFile 0 [encodeEntry recA] ++ scanFile 0 [encodeEntry recB]
      ∧ search ⟨cfgFile, [], [encodeEntry recA] ++ badUnit :: [encodeEntry recB], []⟩
          newSearchParams
        = search ⟨cfgFile, [], [encodeEntry recA] ++ [encodeEntry recB], []⟩
          newSearchParams) :=
  ⟨by decide, rfl,
   corrupt_unit_skipped cfgFile [] [encodeEntry recA] [encodeEntry recB] badUnit []
     newSearchParams (by decide) rfl⟩

/-- Claim C7: configuration validation rejects invalid input eagerly with a
descriptive error naming the offending field — an interval below the minimum
or above the maximum is rejected, a duplicate ignored-host entry is rejected
with an error naming the host and its index, an empty ignored-host entry is
rejected — and a valid configuration is accepted and returned unchanged by a
subsequent read. -/
theorem stats_config_validation :
    (∀ req : StatsConfigReq, ∀ b, req.enabled = some b → req.interval < hourMs →
      handlePutStatsConfig req = .error "unsupported interval: less than an hour")
    ∧ (∀ req : StatsConfigReq, ∀ b, req.enabled = some b → yearMs < req.interval →
      handlePutStatsConfig req = .error "unsupported interval: more than a year")
    ∧ handlePutStatsConfig ⟨some true, hourMs, ["ignor.ed", "ignor.ed"]⟩
      = .error "ignored: duplicate host name \"ignor.ed\" at index 1"
    ∧ handlePutStatsConfig ⟨some true, hourMs, [""]⟩
      = .error "ignored: host name is empty"
    ∧ (∀ req stored : StatsConfigReq, handlePutStatsConfig req = .ok stored →
      handleGetStatsConfig stored = req) := by
  refine ⟨?_, ?_, rfl, rfl, ?_⟩
  · intro req b hb hlt
    simp only [handlePutStatsConfig, hb]
    rw [if_pos hlt]
  · intro req b hb hgt
    have hnlt : ¬req.interval < hourMs := by
      unfold hourMs yearMs at *
      omega
    simp only [handlePutStatsConfig, hb]
    rw [if_neg hnlt, if_pos hgt]
  · intro req stored h
    cases hb : req.enabled with
    | none => simp [handlePutStatsConfig, hb] at h
    | some b =>
      simp only [handlePutStatsConfig, hb] at h
      by_cases h1 : req.interval < hourMs
      · rw [if_pos h1] at h
        exact absurd h (by simp)
      · rw [if_neg h1] at h
        by_cases h2 : yearMs < req.interval
        · rw [if_pos h2] at h
          exact absurd h (by simp)
        · rw [if_neg h2] at h
          cases hig : findIgnoredError [] req.ignored 0 with
          | some e =>
            rw [hig] at h
            exact absurd h (by simp)
          | none =>
            rw [hig] at h
            cases h
            rfl

/-- Witness for `stats_config_validation`: a one-minute interval is rejected,
a valid configuration is stored and read back unchanged. -/
theorem stats_config_validation_witness :
    (⟨some true, 60000, []⟩ : StatsConfigReq).enabled = some true
    ∧ (⟨some true, 60000, []⟩ : StatsConfigReq).interval < hourMs
    ∧ handlePutStatsConfig ⟨some true, 60000, []⟩
      = .error "unsupported interval: less than an hour"
    ∧ handlePutStatsConfig ⟨some true, hourMs, ["ignor.ed"]⟩
      = .ok ⟨some true, hourMs, ["ignor.ed"]⟩
    ∧ handleGetStatsConfig ⟨some true, hourMs, ["ignor.ed"]⟩
      = ⟨some true, hourMs, ["ignor.ed"]⟩ :=
  ⟨rfl, by decide,
   stats_config_validation.1 ⟨some true, 60000, []⟩ true rfl (by decide),
   rfl,
   stats_config_validation.2.2.2.2 ⟨some true, hourMs, ["ignor.ed"]⟩
     ⟨some true, hourMs, ["ignor.ed"]⟩ rfl⟩

/-- Counterexample to claim C10 as stated: the host `x.example.org` matches
`rwExactA` exactly, yet `findRewrites` returns the wildcard entry
`rwWildCNAME` — a wildcard CNAME sorts before an exact A entry and the
truncation keeps it — refuting "if the host matched any entry exactly, no
wildcard entries are returned". -/
theorem findRewrites_mixed_cex :
    rewriteDomainMatches rwExactA "x.example.org" = true
    ∧ rwExactA.Domain = "x.example.org"
    ∧ isWildcard rwExactA.Domain = false
    ∧ isWildcard rwWildCNAME.Domain = true
    ∧ findRewrites [rwWildCNAME, rwExactA] "x.example.org" TypeA
      = ([rwWildCNAME], true) := by
  decide

theorem findRewrites_no_mix (entries : List LegacyRewrite) (host : String) (qtype : Nat) :
    (∀ r ∈ (findRewrites entries host qtype).1, isWildcard r.Domain = true)
    ∨ (∀ r ∈ (findRewrites entries host qtype).1, isWildcard r.Domain = false) := by
  simp only [findRewrites]
  split
  · exact Or.inr (by simp)
  · exact truncAtWildcard_no_mix _

theorem findRewrites_matched (entries : List LegacyRewrite) (host : String) (qtype : Nat) :
    (findRewrites entries host qtype).2 = true
    ↔ ∃ e ∈ entries, rewriteDomainMatches e host = true := by
  simp only [findRewrites]
  split <;> simp [List.isEmpty_iff, List.filter_eq_nil_iff]

theorem findRewrites_all_wild (entries : List LegacyRewrite) (host : String) (qtype : Nat)
    (hwild : ∀ e ∈ entries, rewriteDomainMatches e host = true → isWildcard e.Domain = true)
    (hex : ∃ e ∈ entries, rewriteDomainMatches e host = true ∧ matchesQType e qtype = true) :
    ∃ w ∈ entries,
      findRewrites entries host qtype = ([w], true) ∧ isWildcard w.Domain = true := by
  obtain ⟨e0, he0, hdom0, hqt0⟩ := hex
  have hmem : e0 ∈ (entries.filter (fun e => rewriteDomainMatches e host)).filter
      (fun e => matchesQType e qtype) :=
    List.mem_filter.mpr ⟨List.mem_filter.mpr ⟨he0, hdom0⟩, hqt0⟩
  have hne : (entries.filter (fun e => rewriteDomainMatches e host)).filter
      (fun e => matchesQType e qtype) ≠ [] := List.ne_nil_of_mem hmem
  have hmsne : entries.filter (fun e => rewriteDomainMatches e host) ≠ [] :=
    List.ne_nil_of_mem (List.mem_filter.mpr ⟨he0, hdom0⟩)
  obtain ⟨w, t, hsort⟩ : ∃ w t,
      sortFunc legacyRewriteSortsBefore
        ((entries.filter (fun e => rewriteDomainMatches e host)).filter
          (fun e => matchesQType e qtype)) = w :: t := by
    cases hs : sortFunc legacyRewriteSortsBefore
        ((entries.filter (fun e => rewriteDomainMatches e host)).filter
          (fun e => matchesQType e qtype)) with
    | nil =>
      have := length_sortFunc legacyRewriteSortsBefore
        ((entries.filter (fun e => rewriteDomainMatches e host)).filter
          (fun e => matchesQType e qtype))
      rw [hs] at this
      exact absurd (List.eq_nil_of_length_eq_zero this.symm) hne
    | cons w t => exact ⟨w, t, rfl⟩
  have hwrws : w ∈ (entries.filter (fun e => rewriteDomainMatches e host)).filter
      (fun e => matchesQType e qtype) :=
    (mem_sortFunc legacyRewriteSortsBefore w _).mp (hsort ▸ List.mem_cons_self w t)
  have hwms := List.mem_filter.mp hwrws
  have hwent := List.mem_filter.mp hwms.1
  have hw : isWildcard w.Domain = true := hwild w hwent.1 hwent.2
  refine ⟨w, hwent.1, ?_, hw⟩
  have hcond : ¬(((entries.filter (fun e => rewriteDomainMatches e host)).filter
      (fun e => matchesQType e qtype)).isEmpty = true) := by
    rw [List.isEmpty_iff]
    exact hne
  have hmsfalse : (entries.filter (fun e => rewriteDomainMatches e host)).isEmpty = false := by
    cases hh : entries.filter (fun e => rewriteDomainMatches e host) with
    | nil => exact absurd hh hmsne
    | cons a l => rfl
  simp only [findRewrites]
  rw [if_neg hcond, hsort, truncAtWildcard_head_wild w t hw, hmsfalse]
  rfl

/-- Claim C10, amended: the list returned by `findRewrites` never mixes
exact-domain and wildcard entries; `matched` is true exactly when the host
matched some entry's domain, even if no entry fits the question type; and
when only wildcard entries matched the host (and at least one also fits the
question type), exactly one entry — the first after sorting — is returned.
(The original claim's "if the host matched any entry exactly, no wildcard
entries are returned" fails: see the counterexample.) -/
theorem findRewrites_properties (entries : List LegacyRewrite) (host : String) (qtype : Nat) :
    ((∀ r ∈ (findRewrites entries host qtype).1, isWildcard r.Domain = true)
      ∨ (∀ r ∈ (findRewrites entries host qtype).1, isWildcard r.Domain = false))
    ∧ ((findRewrites entries host qtype).2 = true
      ↔ ∃ e ∈ entries, rewriteDomainMatches e host = true)
    ∧ ((∀ e ∈ entries, rewriteDomainMatches e host = true → isWildcard e.Domain = true) →
      (∃ e ∈ entries, rewriteDomainMatches e host = true ∧ matchesQType e qtype = true) →
      ∃ w ∈ entries,
        findRewrites entries host qtype = ([w], true) ∧ isWildcard w.Domain = true) :=
  ⟨findRewrites_no_mix entries host qtype, findRewrites_matched entries host qtype,
   fun hwild hex => findRewrites_all_wild entries host qtype hwild hex⟩

/-- Witness for `findRewrites_properties`: a lone wildcard CNAME entry. -/
theorem findRewrites_properties_witness :
    (∀ e ∈ [rwWildCNAME], rewriteDomainMatches e "x.example.org" = true
      → isWildcard e.Domain = true)
    ∧ (∃ e ∈ [rwWildCNAME], rewriteDomainMatches e "x.example.org" = true
      ∧ matchesQType e TypeA = true)
    ∧ (∃ w ∈ [rwWildCNAME],
        findRewrites [rwWildCNAME] "x.example.org" TypeA = ([w], true)
        ∧ isWildcard w.Domain = true) :=
  ⟨by decide, by decide,
   (findRewrites_properties [rwWildCNAME] "x.example.org" TypeA).2.2 (by decide) (by decide)⟩

/-- Witness for `shouldLog_iff_ignored` at the test's ignored set. -/
theorem shouldLog_iff_ignored_witness :
    (ShouldLog (newQueryLog ⟨true, true, 100, ["ignor.ed", "ignored.to"]⟩) "ignor.ed" 1 1 = false
      ↔ "ignor.ed" ∈ (newQueryLog ⟨true, true, 100, ["ignor.ed", "ignored.to"]⟩).conf.ignored)
    ∧ ShouldLog (newQueryLog ⟨true, true, 100, ["ignor.ed", "ignored.to"]⟩) "ignor.ed" 1 1
      = ShouldLog (newQueryLog ⟨true, true, 100, ["ignor.ed", "ignored.to"]⟩) "ignor.ed" 28 1 :=
  shouldLog_iff_ignored (newQueryLog ⟨true, true, 100, ["ignor.ed", "ignored.to"]⟩)
    "ignor.ed" 1 1 28 1
